import Mathlib

/-!
# A fixed-dimension point type (`point.hpp`)

Shallow embedding of the class template `point<T, N>` and of its free helper
functions.

* A `point<T, N>` object is its member array `T data_[N]`, modelled as a
  function `Fin N → T`.
* Member functions that mutate an existing object (`operator+=`, `operator-=`,
  `operator*=`, writes through `x()`, `y()`, `z()`, `operator[]`) take their
  operands by C++ reference, so an operand may designate the receiver itself or
  one of its components.  They are therefore modelled over a memory
  `Mem L T N = L → point T N` of point objects addressed by locations `L`;
  a C++ reference to a point is a location, a reference to a component is a
  location together with an index.
* Constructors and the `make_point*` helpers build a fresh object and return
  it by value; they are modelled as functions returning a `point T N` value.
* `T()` is `default` of `Inhabited T`; `+=`, `-=`, `*=` on `T` are `+`, `-`,
  `*` of `Add T`, `Sub T`, `Mul T`.
* A `static_assert` on `N` is a proof argument of the embedded function.
-/

namespace PointHpp

/-! ## Loops -/

/-- The loop `for (size_type i = n - k; i < n; i++) body(i);` on a state `S`:
`k` is the number of iterations still to run, so the next index is `n - k`. -/
def for_loop {S : Type} (n : Nat) (body : Fin n → S → S) : (k : Nat) → k ≤ n → S → S
  | 0, _, s => s
  | k + 1, h, s =>
      for_loop n body k (Nat.le_of_succ_le h) (body ⟨n - (k + 1), by omega⟩ s)

/-- The loop `for (size_type i = 0; i < n; i++) body(i);`. -/
def for_range {S : Type} (n : Nat) (body : Fin n → S → S) (s : S) : S :=
  for_loop n body n (Nat.le_refl n) s

/-! ## The class template -/

/-- The class `point<T, N>`: its only data member is `T data_[N]`. -/
structure point (T : Type) (N : Nat) where
  data_ : Fin N → T

/-- Assignment `data_[i] = v` on a point value. -/
def point.assign {T : Type} {N : Nat} (p : point T N) (i : Fin N) (v : T) : point T N :=
  ⟨fun j => if j = i then v else p.data_ j⟩

/-- The member initialiser `data_()`: value-initialisation of the array, every
element is `T()`. -/
def point.value_init (T : Type) [Inhabited T] (N : Nat) : point T N :=
  ⟨fun _ => default⟩

/-- The default constructor `point()`:
`assert0(); for (size_type i = 0; i < N; i++) data_[i] = T();` after `data_()`. -/
def point.ctor {T : Type} [Inhabited T] {N : Nat} (_assert0 : N ≠ 0) : point T N :=
  for_range N (fun i d => d.assign i default) (point.value_init T N)

/-- The constructor `point(const T& x, const T& y)`:
`assert2(); data_[0] = x; data_[1] = y;` after `data_()`. -/
def point.ctor2 {T : Type} [Inhabited T] {N : Nat} (assert2 : 2 ≤ N) (x y : T) : point T N :=
  ((point.value_init T N).assign ⟨0, by omega⟩ x).assign ⟨1, by omega⟩ y

/-- The constructor `point(const T& x, const T& y, const T& z)`:
`assert3(); data_[0] = x; data_[1] = y; data_[2] = z;` after `data_()`. -/
def point.ctor3 {T : Type} [Inhabited T] {N : Nat} (assert3 : 3 ≤ N) (x y z : T) : point T N :=
  (((point.value_init T N).assign ⟨0, by omega⟩ x).assign ⟨1, by omega⟩ y).assign
    ⟨2, by omega⟩ z

/-- The constructor template `point(U&& x, U&& y)`:
`assert2(); data_[0] = std::forward<U>(x); data_[1] = std::forward<U>(y);`
after `data_()`.  `conv` is the conversion the assignment of a `U` to a `T`
performs (the identity when `U` is `T`). -/
def point.ctor2_fwd {T U : Type} [Inhabited T] {N : Nat} (conv : U → T) (assert2 : 2 ≤ N)
    (x y : U) : point T N :=
  ((point.value_init T N).assign ⟨0, by omega⟩ (conv x)).assign ⟨1, by omega⟩ (conv y)

/-- The constructor template `point(U&& x, U&& y, U&& z)`:
`assert3(); data_[0] = std::forward<U>(x); data_[1] = std::forward<U>(y);
data_[2] = std::forward<U>(z);` after `data_()`. -/
def point.ctor3_fwd {T U : Type} [Inhabited T] {N : Nat} (conv : U → T) (assert3 : 3 ≤ N)
    (x y z : U) : point T N :=
  (((point.value_init T N).assign ⟨0, by omega⟩ (conv x)).assign ⟨1, by omega⟩
    (conv y)).assign ⟨2, by omega⟩ (conv z)

/-- The member `dimension()`: `return N;`. -/
def point.dimension {T : Type} {N : Nat} (_this : point T N) : Nat := N

/-! ## Objects in memory and references -/

/-- A memory of `point<T, N>` objects, addressed by locations of type `L`. -/
abbrev Mem (L T : Type) (N : Nat) := L → point T N

/-- The type `reference` (`value_type&`) as the members return it: a reference
to component `idx` of the point object at location `obj`. -/
structure reference (L : Type) (N : Nat) where
  obj : L
  idx : Fin N

/-- The type `const_reference` (`const value_type&`): it designates either a
`T` object that is no part of any point of the memory (never written by the
code below, hence given by its value) or a component of a point of the memory. -/
inductive const_reference (L T : Type) (N : Nat) where
  | outside (v : T) : const_reference L T N
  | component (l : L) (k : Fin N) : const_reference L T N

/-- Reading through a `reference`. -/
def reference.get {L T : Type} {N : Nat} (m : Mem L T N) (r : reference L N) : T :=
  (m r.obj).data_ r.idx

/-- Writing `v` through a `reference`: `r = v`. -/
def reference.set {L T : Type} {N : Nat} [DecidableEq L] (m : Mem L T N) (r : reference L N)
    (v : T) : Mem L T N :=
  fun l => if l = r.obj then (m r.obj).assign r.idx v else m l

/-- Reading through a `const_reference`. -/
def const_reference.get {L T : Type} {N : Nat} (m : Mem L T N) : const_reference L T N → T
  | const_reference.outside v => v
  | const_reference.component l k => (m l).data_ k

/-- The conversion of a `reference` to a `const_reference`. -/
def reference.to_const {L : Type} {N : Nat} (T : Type) (r : reference L N) :
    const_reference L T N :=
  const_reference.component r.obj r.idx

/-- The scalar reference `v` designates no component of the object at `this`. -/
def const_reference.apart {L T : Type} {N : Nat} (v : const_reference L T N) (this : L) : Prop :=
  match v with
  | const_reference.outside _ => True
  | const_reference.component l _ => l ≠ this

/-- Whether a scalar reference designates a component of the receiver can be
decided. -/
instance const_reference.decidable_apart {L T : Type} {N : Nat} [DecidableEq L]
    (v : const_reference L T N) (this : L) : Decidable (v.apart this) :=
  match v with
  | const_reference.outside _ => isTrue trivial
  | const_reference.component l _ =>
      if h : l = this then isFalse (fun h2 => h2 h) else isTrue h

/-- A memory holding the single object `p`. -/
def Mem.single {T : Type} {N : Nat} (p : point T N) : Mem Unit T N := fun _ => p

/-- The memory of the scenario `point<int, 2> a(1, 2), b(3, 4);`: `a` is at
location `false`, `b` at location `true`. -/
def mem_ab : Mem Bool Int 2 := fun l =>
  if l then point.ctor2 (Nat.le_refl 2) 3 4 else point.ctor2 (Nat.le_refl 2) 1 2

/-! ## Accessors -/

/-- The member `reference x()`: `assert1(); return data_[0];`. -/
def x {L : Type} {N : Nat} (this : L) (assert1 : 1 ≤ N) : reference L N :=
  ⟨this, ⟨0, by omega⟩⟩

/-- The member `const_reference x() const`: `assert1(); return data_[0];`. -/
def x_const {L : Type} (T : Type) {N : Nat} (this : L) (assert1 : 1 ≤ N) :
    const_reference L T N :=
  const_reference.component this ⟨0, by omega⟩

/-- The member `reference y()`: `assert2(); return data_[1];`. -/
def y {L : Type} {N : Nat} (this : L) (assert2 : 2 ≤ N) : reference L N :=
  ⟨this, ⟨1, by omega⟩⟩

/-- The member `const_reference y() const`: `assert2(); return data_[1];`. -/
def y_const {L : Type} (T : Type) {N : Nat} (this : L) (assert2 : 2 ≤ N) :
    const_reference L T N :=
  const_reference.component this ⟨1, by omega⟩

/-- The member `reference z()`: `assert3(); return data_[2];`. -/
def z {L : Type} {N : Nat} (this : L) (assert3 : 3 ≤ N) : reference L N :=
  ⟨this, ⟨2, by omega⟩⟩

/-- The member `const_reference z() const`: `assert3(); return data_[2];`. -/
def z_const {L : Type} (T : Type) {N : Nat} (this : L) (assert3 : 3 ≤ N) :
    const_reference L T N :=
  const_reference.component this ⟨2, by omega⟩

/-- The member `reference operator[](size_type n)`: `return data_[n];`.  The
source checks no bound; `n < N` is the caller's obligation. -/
def operator_subscript {L : Type} {N : Nat} (this : L) (n : Nat) (in_range : n < N) :
    reference L N :=
  ⟨this, ⟨n, in_range⟩⟩

/-- The member `const_reference operator[](size_type n) const`: `return data_[n];`. -/
def operator_subscript_const {L : Type} (T : Type) {N : Nat} (this : L) (n : Nat)
    (in_range : n < N) : const_reference L T N :=
  const_reference.component this ⟨n, in_range⟩

/-! ## Arithmetic operators -/

/-- The member `point& operator+=(const point& p)`:
`for (size_type i = 0; i < N; i++) data_[i] += p[i]; return *this;`.
Both `*this` and `p` are read in the memory of the current iteration.  The
result is the final memory and the returned reference `*this`. -/
def operator_plus_eq {L T : Type} {N : Nat} [DecidableEq L] [Add T] (m : Mem L T N)
    (this p : L) : Mem L T N × L :=
  (for_range N
    (fun i m => reference.set m ⟨this, i⟩
      (reference.get m ⟨this, i⟩ + (operator_subscript_const T p i.val i.isLt).get m)) m,
   this)

/-- The member `point& operator-=(const point& p)`:
`for (size_type i = 0; i < N; i++) data_[i] -= p[i]; return *this;`. -/
def operator_minus_eq {L T : Type} {N : Nat} [DecidableEq L] [Sub T] (m : Mem L T N)
    (this p : L) : Mem L T N × L :=
  (for_range N
    (fun i m => reference.set m ⟨this, i⟩
      (reference.get m ⟨this, i⟩ - (operator_subscript_const T p i.val i.isLt).get m)) m,
   this)

/-- The member `point& operator*=(const_reference v)`:
`for (size_type i = 0; i < N; i++) data_[i] *= v; return *this;`.
`v` is read in the memory of the current iteration. -/
def operator_times_eq {L T : Type} {N : Nat} [DecidableEq L] [Mul T] (m : Mem L T N)
    (this : L) (v : const_reference L T N) : Mem L T N × L :=
  (for_range N
    (fun i m => reference.set m ⟨this, i⟩ (reference.get m ⟨this, i⟩ * v.get m)) m,
   this)

/-- The memory inside a call of a friend operator: the by-value parameter `lhs`
is a new object, at the location `none`; the caller's objects stay where they
are, at `some l`. -/
def call_frame {L T : Type} {N : Nat} (m : Mem L T N) (lhs : point T N) : Mem (Option L) T N
  | none => lhs
  | some l => m l

/-- A caller's `const_reference` seen from inside a call. -/
def const_reference.in_frame {L T : Type} {N : Nat} :
    const_reference L T N → const_reference (Option L) T N
  | const_reference.outside v => const_reference.outside v
  | const_reference.component l k => const_reference.component (some l) k

/-- The friend `point operator+(point lhs, const point& rhs)`:
`return (lhs += rhs);`.  The result is the returned point value and the
caller's memory after the call. -/
def operator_plus {L T : Type} {N : Nat} [DecidableEq L] [Add T] (m : Mem L T N)
    (lhs : point T N) (rhs : L) : point T N × Mem L T N :=
  let r := operator_plus_eq (call_frame m lhs) none (some rhs)
  (r.1 r.2, fun l => r.1 (some l))

/-- The friend `point operator-(point lhs, const point& rhs)`:
`return (lhs -= rhs);`. -/
def operator_minus {L T : Type} {N : Nat} [DecidableEq L] [Sub T] (m : Mem L T N)
    (lhs : point T N) (rhs : L) : point T N × Mem L T N :=
  let r := operator_minus_eq (call_frame m lhs) none (some rhs)
  (r.1 r.2, fun l => r.1 (some l))

/-- The friend `point operator*(point lhs, const_reference rhs)`:
`return (lhs *= rhs);`. -/
def operator_times {L T : Type} {N : Nat} [DecidableEq L] [Mul T] (m : Mem L T N)
    (lhs : point T N) (rhs : const_reference L T N) : point T N × Mem L T N :=
  let r := operator_times_eq (call_frame m lhs) none rhs.in_frame
  (r.1 r.2, fun l => r.1 (some l))

/-! ## Free helper functions -/

/-- The helper `make_point2(T&& x, T&& y)`:
`return {std::forward<T>(x), std::forward<T>(y)};`, the forwarding constructor
of `point2<T>` at `U = T`. -/
def make_point2_values {T : Type} [Inhabited T] (x y : T) : point T 2 :=
  point.ctor2_fwd id (Nat.le_refl 2) x y

/-- The helper `make_point3(T&& x, T&& y, T&& z)`:
`return {std::forward<T>(x), std::forward<T>(y), std::forward<T>(z)};`. -/
def make_point3_values {T : Type} [Inhabited T] (x y z : T) : point T 3 :=
  point.ctor3_fwd id (Nat.le_refl 3) x y z

/-- The helper `make_point2(const point<T, N>& p)`:
`point2<T> ret{T(), T()}; auto lim = std::min(p.dimension(), 2);
for (i = 0; i < lim; i++) ret[i] = p[i]; return ret;`.
`ret` is a new local object, so `p` is not written during the loop. -/
def make_point2 {T : Type} [Inhabited T] {N : Nat} (p : point T N) : point T 2 :=
  let ret : point T 2 := point.ctor2_fwd id (Nat.le_refl 2) default default
  let lim := min p.dimension 2
  for_range lim
    (fun i ret => ret.assign ⟨i.val, lt_of_lt_of_le i.isLt (Nat.min_le_right _ _)⟩
      (p.data_ ⟨i.val, lt_of_lt_of_le i.isLt (Nat.min_le_left _ _)⟩)) ret

/-- The helper `make_point3(const point<T, N>& p)`:
`point3<T> ret{T(), T(), T()}; auto lim = std::min(p.dimension(), 3);
for (i = 0; i < lim; i++) ret[i] = p[i]; return ret;`. -/
def make_point3 {T : Type} [Inhabited T] {N : Nat} (p : point T N) : point T 3 :=
  let ret : point T 3 := point.ctor3_fwd id (Nat.le_refl 3) default default default
  let lim := min p.dimension 3
  for_range lim
    (fun i ret => ret.assign ⟨i.val, lt_of_lt_of_le i.isLt (Nat.min_le_right _ _)⟩
      (p.data_ ⟨i.val, lt_of_lt_of_le i.isLt (Nat.min_le_left _ _)⟩)) ret

/-! ## Copying -/

/-- The defaulted copy constructor `point(const point& p) = default;`: the
member array is copied element by element. -/
def point.copy_ctor {T : Type} {N : Nat} (p : point T N) : point T N :=
  ⟨fun i => p.data_ i⟩

/-- The declaration `point p2 = p;` (or `point p2(p);`): the new object `p2`
is at the location `none`, the objects that existed before stay at `some l`. -/
def declare_copy {L T : Type} {N : Nat} (m : Mem L T N) (p : L) : Mem (Option L) T N
  | none => point.copy_ctor (m p)
  | some l => m l

/-- The defaulted copy assignment `point& operator=(const point& p) = default;`:
the member array of `*this` is assigned element by element from that of `p`;
the result is the final memory and the returned reference `*this`. -/
def operator_assign {L T : Type} {N : Nat} [DecidableEq L] (m : Mem L T N) (this p : L) :
    Mem L T N × L :=
  (fun l => if l = this then ⟨fun i => (m p).data_ i⟩ else m l, this)

/-- The ways the public interface mutates a point object: a write through a
`reference` to one of its components (as `operator[]`, `x()`, `y()`, `z()`
return it), `+=`, `-=` and `*=`. -/
inductive mutation (L T : Type) (N : Nat) where
  | write (i : Fin N) (v : T) : mutation L T N
  | plus_eq (q : L) : mutation L T N
  | minus_eq (q : L) : mutation L T N
  | times_eq (s : const_reference L T N) : mutation L T N

/-- Running one mutation on the object at `this`. -/
def mutation.run {L T : Type} {N : Nat} [DecidableEq L] [Add T] [Sub T] [Mul T] (this : L)
    (m : Mem L T N) : mutation L T N → Mem L T N
  | mutation.write i v => reference.set m ⟨this, i⟩ v
  | mutation.plus_eq q => (operator_plus_eq m this q).1
  | mutation.minus_eq q => (operator_minus_eq m this q).1
  | mutation.times_eq s => (operator_times_eq m this s).1

/-! ## Static assertions -/

/-- The condition of `assert0()`: `static_assert(N != 0, ...)`. -/
def assert0 (N : Nat) : Prop := N ≠ 0

/-- The condition of `assert1()`: `static_assert(N >= 1, ...)`. -/
def assert1 (N : Nat) : Prop := N ≥ 1

/-- The condition of `assert2()`: `static_assert(N >= 2, ...)`. -/
def assert2 (N : Nat) : Prop := N ≥ 2

/-- The condition of `assert3()`: `static_assert(N >= 3, ...)`. -/
def assert3 (N : Nat) : Prop := N ≥ 3

/-- The members of `point` whose body calls one of `assert0()` .. `assert3()`:
the five value constructors and the named accessors in both overloads. -/
inductive gated_member where
  | default_ctor | ctor2 | ctor3 | ctor2_fwd | ctor3_fwd
  | x | x_const | y | y_const | z | z_const

/-- The static assertion the body of the member calls. -/
def gated_member.static_assert : gated_member → Nat → Prop
  | gated_member.default_ctor, N => assert0 N
  | gated_member.ctor2, N => assert2 N
  | gated_member.ctor3, N => assert3 N
  | gated_member.ctor2_fwd, N => assert2 N
  | gated_member.ctor3_fwd, N => assert3 N
  | gated_member.x, N => assert1 N
  | gated_member.x_const, N => assert1 N
  | gated_member.y, N => assert2 N
  | gated_member.y_const, N => assert2 N
  | gated_member.z, N => assert3 N
  | gated_member.z_const, N => assert3 N

/-- The static assertions are conditions on a number, hence decidable. -/
instance gated_member.decidable_static_assert (g : gated_member) (N : Nat) :
    Decidable (g.static_assert N) := by
  cases g <;> simp only [gated_member.static_assert, assert0, assert1, assert2, assert3] <;>
    infer_instance

/-- The subscripts of `data_` the body of the member evaluates: the loop of the
default constructor runs over `0 .. N-1`, the other bodies name their
subscripts. -/
def gated_member.subscripts : gated_member → Nat → List Nat
  | gated_member.default_ctor, N => List.range N
  | gated_member.ctor2, _ => [0, 1]
  | gated_member.ctor3, _ => [0, 1, 2]
  | gated_member.ctor2_fwd, _ => [0, 1]
  | gated_member.ctor3_fwd, _ => [0, 1, 2]
  | gated_member.x, _ => [0]
  | gated_member.x_const, _ => [0]
  | gated_member.y, _ => [1]
  | gated_member.y_const, _ => [1]
  | gated_member.z, _ => [2]
  | gated_member.z_const, _ => [2]

/-! ## Fixed-width unsigned scalars -/

/-- An unsigned integer of `w` bits, as a scalar type `T` of `point`. -/
structure uint (w : Nat) where
  val : Nat
  lt : val < 2 ^ w

/-- Unsigned addition wraps around: `(a + b) mod 2^w`. -/
instance uint.add_wrap (w : Nat) : Add (uint w) :=
  ⟨fun a b => ⟨(a.val + b.val) % 2 ^ w, Nat.mod_lt _ (Nat.two_pow_pos w)⟩⟩

/-- Unsigned subtraction wraps around: `(a - b) mod 2^w`, computed as
`(a + (2^w - b)) mod 2^w`. -/
instance uint.sub_wrap (w : Nat) : Sub (uint w) :=
  ⟨fun a b => ⟨(a.val + (2 ^ w - b.val)) % 2 ^ w, Nat.mod_lt _ (Nat.two_pow_pos w)⟩⟩

/-- The memory of the scenario `point<uint8_t, 2> a(200, 1), b(100, 255);`:
`a` is at location `false`, `b` at location `true`. -/
def mem_u8 : Mem Bool (uint 8) 2 := fun l =>
  if l then ⟨fun i => if i = 0 then ⟨100, by decide⟩ else ⟨255, by decide⟩⟩
  else ⟨fun i => if i = 0 then ⟨200, by decide⟩ else ⟨1, by decide⟩⟩

/-! ## Auxiliary lemmas -/

/-- Invariant rule for `for_loop`: a predicate `P i s` on (next index, state)
that every iteration carries from `i` to `i + 1` holds at `n` after the loop. -/
theorem for_loop_invariant {S : Type} (n : Nat) (body : Fin n → S → S) (P : Nat → S → Prop)
    (hstep : ∀ (i : Fin n) (s : S), P i.val s → P (i.val + 1) (body i s)) :
    ∀ (k : Nat) (hk : k ≤ n) (s : S), P (n - k) s → P n (for_loop n body k hk s) := by
  intro k
  induction k with
  | zero => intro _ s h; simpa [for_loop] using h
  | succ k ih =>
    intro hk s h
    rw [for_loop]
    apply ih
    have hs := hstep ⟨n - (k + 1), by omega⟩ s h
    have e : n - (k + 1) + 1 = n - k := by omega
    simp only [e] at hs
    exact hs

/-- Invariant rule for the full loop `for (i = 0; i < n; i++)`. -/
theorem for_range_invariant {S : Type} (n : Nat) (body : Fin n → S → S) (P : Nat → S → Prop)
    (hstep : ∀ (i : Fin n) (s : S), P i.val s → P (i.val + 1) (body i s))
    (s : S) (h0 : P 0 s) : P n (for_range n body s) := by
  unfold for_range
  apply for_loop_invariant n body P hstep
  simpa using h0

theorem point.assign_data {T : Type} {N : Nat} (p : point T N) (i j : Fin N) (v : T) :
    (p.assign i v).data_ j = if j = i then v else p.data_ j := rfl

theorem reference.set_other {L T : Type} {N : Nat} [DecidableEq L] (m : Mem L T N)
    (r : reference L N) (v : T) (l : L) (h : l ≠ r.obj) : reference.set m r v l = m l := by
  simp [reference.set, h]

theorem reference.set_obj {L T : Type} {N : Nat} [DecidableEq L] (m : Mem L T N)
    (r : reference L N) (v : T) (j : Fin N) :
    (reference.set m r v r.obj).data_ j = if j = r.idx then v else (m r.obj).data_ j := by
  simp [reference.set, point.assign_data]

/-- A loop that writes, at iteration `i`, component `i` of the object at `this`
with a value `g i m` which only depends on the objects other than `this` and
on the components of `this` from `i` on: afterwards component `j` of `this`
holds `f j`, the value of `g j` in the initial memory, and no other object
has changed. -/
theorem for_range_set_spec {L T : Type} {N : Nat} [DecidableEq L] (m : Mem L T N) (this : L)
    (g : Fin N → Mem L T N → T) (f : Fin N → T)
    (hg : ∀ (i : Fin N) (m1 : Mem L T N), (∀ l, l ≠ this → m1 l = m l) →
      (∀ j : Fin N, i.val ≤ j.val → (m1 this).data_ j = (m this).data_ j) → g i m1 = f i) :
    (∀ l, l ≠ this → for_range N (fun i m1 => reference.set m1 ⟨this, i⟩ (g i m1)) m l = m l) ∧
    (∀ j, (for_range N (fun i m1 => reference.set m1 ⟨this, i⟩ (g i m1)) m this).data_ j = f j) := by
  have key := for_range_invariant N (fun i m1 => reference.set m1 ⟨this, i⟩ (g i m1))
    (fun i m1 => (∀ l, l ≠ this → m1 l = m l) ∧
      (∀ j : Fin N, (m1 this).data_ j = if j.val < i then f j else (m this).data_ j))
    (by
      intro i m1 ⟨hframe, hcomp⟩
      have hgi : g i m1 = f i := by
        apply hg i m1 hframe
        intro j hj
        rw [hcomp j, if_neg (by omega)]
      beta_reduce
      refine ⟨?_, ?_⟩
      · intro l hl
        rw [reference.set_other m1 ⟨this, i⟩ _ l hl]
        exact hframe l hl
      · intro j
        have := reference.set_obj m1 ⟨this, i⟩ (g i m1) j
        simp only at this
        rw [this, hgi]
        by_cases hji : j = i
        · subst hji; simp
        · have hne : j.val ≠ i.val := fun h => hji (Fin.ext h)
          rw [if_neg hji, hcomp j]
          by_cases hlt : j.val < i.val
          · rw [if_pos hlt, if_pos (by omega)]
          · rw [if_neg hlt, if_neg (by omega)])
    m ⟨fun _ _ => rfl, fun j => by simp⟩
  refine ⟨key.1, ?_⟩
  intro j
  rw [key.2 j, if_pos j.isLt]

/-- Effect of `operator+=` on memory, for any two locations (equal or not). -/
theorem operator_plus_eq_mem {L T : Type} {N : Nat} [DecidableEq L] [Add T] (m : Mem L T N)
    (this p : L) :
    (∀ l, l ≠ this → (operator_plus_eq m this p).1 l = m l) ∧
    (∀ j, ((operator_plus_eq m this p).1 this).data_ j = (m this).data_ j + (m p).data_ j) := by
  unfold operator_plus_eq
  apply for_range_set_spec m this _ (fun j => (m this).data_ j + (m p).data_ j)
  intro i m1 hframe hcomp
  simp only [reference.get, operator_subscript_const, const_reference.get]
  rw [hcomp i (Nat.le_refl _)]
  by_cases hp : p = this
  · subst hp; rw [hcomp i (Nat.le_refl _)]
  · rw [hframe p hp]

/-- Effect of `operator-=` on memory, for any two locations (equal or not). -/
theorem operator_minus_eq_mem {L T : Type} {N : Nat} [DecidableEq L] [Sub T] (m : Mem L T N)
    (this p : L) :
    (∀ l, l ≠ this → (operator_minus_eq m this p).1 l = m l) ∧
    (∀ j, ((operator_minus_eq m this p).1 this).data_ j = (m this).data_ j - (m p).data_ j) := by
  unfold operator_minus_eq
  apply for_range_set_spec m this _ (fun j => (m this).data_ j - (m p).data_ j)
  intro i m1 hframe hcomp
  simp only [reference.get, operator_subscript_const, const_reference.get]
  rw [hcomp i (Nat.le_refl _)]
  by_cases hp : p = this
  · subst hp; rw [hcomp i (Nat.le_refl _)]
  · rw [hframe p hp]

/-- Effect of `operator*=` on memory when the scalar is held outside the
receiver. -/
theorem operator_times_eq_mem {L T : Type} {N : Nat} [DecidableEq L] [Mul T] (m : Mem L T N)
    (this : L) (v : const_reference L T N) (hv : v.apart this) :
    (∀ l, l ≠ this → (operator_times_eq m this v).1 l = m l) ∧
    (∀ j, ((operator_times_eq m this v).1 this).data_ j = (m this).data_ j * v.get m) := by
  unfold operator_times_eq
  apply for_range_set_spec m this _ (fun j => (m this).data_ j * v.get m)
  intro i m1 hframe hcomp
  simp only [reference.get]
  rw [hcomp i (Nat.le_refl _)]
  cases v with
  | outside s => rfl
  | component l k =>
    simp only [const_reference.get]
    rw [hframe l hv]

/-- Components of the default-constructed point. -/
theorem point.ctor_data {T : Type} [Inhabited T] {N : Nat} (h : N ≠ 0) (j : Fin N) :
    (point.ctor h : point T N).data_ j = default := by
  unfold point.ctor
  exact for_range_invariant N (fun i d => d.assign i default)
    (fun _ (d : point T N) => ∀ j, d.data_ j = default)
    (by
      intro i d hd j
      rw [point.assign_data]
      split
      · rfl
      · exact hd j)
    (point.value_init T N) (fun _ => rfl) j

/-- Components of `make_point2(p)`. -/
theorem make_point2_data {T : Type} [Inhabited T] {N : Nat} (p : point T N) (j : Fin 2) :
    (make_point2 p).data_ j = if h : j.val < N then p.data_ ⟨j.val, h⟩ else default := by
  unfold make_point2
  have key := for_range_invariant (min p.dimension 2)
    (fun i (ret : point T 2) =>
      ret.assign ⟨i.val, lt_of_lt_of_le i.isLt (Nat.min_le_right _ _)⟩
        (p.data_ ⟨i.val, lt_of_lt_of_le i.isLt (Nat.min_le_left _ _)⟩))
    (fun i (ret : point T 2) => ∀ j : Fin 2,
      ret.data_ j = if h : j.val < i ∧ j.val < N then p.data_ ⟨j.val, h.2⟩ else default)
    (by
      intro i ret hret j
      have hiN : i.val < N := lt_of_lt_of_le i.isLt (Nat.min_le_left _ _)
      rw [point.assign_data]
      by_cases hji : j.val = i.val
      · have hj : j = ⟨i.val, lt_of_lt_of_le i.isLt (Nat.min_le_right _ _)⟩ := Fin.ext hji
        rw [if_pos hj, dif_pos ⟨by omega, by omega⟩]
        congr 1
        exact Fin.ext hji.symm
      · have hj : ¬ j = ⟨i.val, lt_of_lt_of_le i.isLt (Nat.min_le_right _ _)⟩ :=
          fun h => hji (congrArg Fin.val h)
        rw [if_neg hj, hret j]
        by_cases hlt : j.val < i.val ∧ j.val < N
        · rw [dif_pos hlt, dif_pos ⟨by omega, hlt.2⟩]
        · rw [dif_neg hlt, dif_neg (by omega)])
    (point.ctor2_fwd id (Nat.le_refl 2) default default)
    (by
      intro j
      rw [dif_neg (by omega)]
      simp [point.ctor2_fwd, point.assign_data, point.value_init])
  rw [key j]
  have hj2 := j.isLt
  by_cases hjN : j.val < N
  · rw [dif_pos hjN, dif_pos ⟨by simp [point.dimension]; omega, hjN⟩]
  · rw [dif_neg hjN, dif_neg (fun h => hjN h.2)]

/-- Components of `make_point3(p)`. -/
theorem make_point3_data {T : Type} [Inhabited T] {N : Nat} (p : point T N) (j : Fin 3) :
    (make_point3 p).data_ j = if h : j.val < N then p.data_ ⟨j.val, h⟩ else default := by
  unfold make_point3
  have key := for_range_invariant (min p.dimension 3)
    (fun i (ret : point T 3) =>
      ret.assign ⟨i.val, lt_of_lt_of_le i.isLt (Nat.min_le_right _ _)⟩
        (p.data_ ⟨i.val, lt_of_lt_of_le i.isLt (Nat.min_le_left _ _)⟩))
    (fun i (ret : point T 3) => ∀ j : Fin 3,
      ret.data_ j = if h : j.val < i ∧ j.val < N then p.data_ ⟨j.val, h.2⟩ else default)
    (by
      intro i ret hret j
      have hiN : i.val < N := lt_of_lt_of_le i.isLt (Nat.min_le_left _ _)
      rw [point.assign_data]
      by_cases hji : j.val = i.val
      · have hj : j = ⟨i.val, lt_of_lt_of_le i.isLt (Nat.min_le_right _ _)⟩ := Fin.ext hji
        rw [if_pos hj, dif_pos ⟨by omega, by omega⟩]
        congr 1
        exact Fin.ext hji.symm
      · have hj : ¬ j = ⟨i.val, lt_of_lt_of_le i.isLt (Nat.min_le_right _ _)⟩ :=
          fun h => hji (congrArg Fin.val h)
        rw [if_neg hj, hret j]
        by_cases hlt : j.val < i.val ∧ j.val < N
        · rw [dif_pos hlt, dif_pos ⟨by omega, hlt.2⟩]
        · rw [dif_neg hlt, dif_neg (by omega)])
    (point.ctor3_fwd id (Nat.le_refl 3) default default default)
    (by
      intro j
      rw [dif_neg (by omega)]
      simp [point.ctor3_fwd, point.assign_data, point.value_init])
  rw [key j]
  have hj3 := j.isLt
  by_cases hjN : j.val < N
  · rw [dif_pos hjN, dif_pos ⟨by simp [point.dimension]; omega, hjN⟩]
  · rw [dif_neg hjN, dif_neg (fun h => hjN h.2)]

/-- The friend operators see the caller's scalar unchanged in their frame. -/
theorem const_reference.in_frame_get {L T : Type} {N : Nat} (m : Mem L T N) (lhs : point T N)
    (v : const_reference L T N) : v.in_frame.get (call_frame m lhs) = v.get m := by
  cases v <;> rfl

/-- A caller's scalar never designates a component of the by-value parameter. -/
theorem const_reference.in_frame_apart {L T : Type} {N : Nat} (v : const_reference L T N) :
    v.in_frame.apart (none : Option L) := by
  cases v with
  | outside s => trivial
  | component l k => exact fun h => Option.noConfusion h

theorem point.ext_data {T : Type} {N : Nat} (a b : point T N)
    (h : ∀ j, a.data_ j = b.data_ j) : a = b := by
  cases a; cases b; congr; exact funext h

/-- Value and memory effect of `lhs + rhs`. -/
theorem operator_plus_mem {L T : Type} {N : Nat} [DecidableEq L] [Add T] (m : Mem L T N)
    (lhs : point T N) (rhs : L) :
    (∀ j, (operator_plus m lhs rhs).1.data_ j = lhs.data_ j + (m rhs).data_ j) ∧
    (operator_plus m lhs rhs).2 = m := by
  have h := operator_plus_eq_mem (call_frame m lhs) none (some rhs)
  refine ⟨fun j => h.2 j, funext fun l => ?_⟩
  exact h.1 (some l) (fun e => Option.noConfusion e)

/-- Value and memory effect of `lhs - rhs`. -/
theorem operator_minus_mem {L T : Type} {N : Nat} [DecidableEq L] [Sub T] (m : Mem L T N)
    (lhs : point T N) (rhs : L) :
    (∀ j, (operator_minus m lhs rhs).1.data_ j = lhs.data_ j - (m rhs).data_ j) ∧
    (operator_minus m lhs rhs).2 = m := by
  have h := operator_minus_eq_mem (call_frame m lhs) none (some rhs)
  refine ⟨fun j => h.2 j, funext fun l => ?_⟩
  exact h.1 (some l) (fun e => Option.noConfusion e)

/-- Value and memory effect of `lhs * rhs`, for any scalar reference. -/
theorem operator_times_mem {L T : Type} {N : Nat} [DecidableEq L] [Mul T] (m : Mem L T N)
    (lhs : point T N) (rhs : const_reference L T N) :
    (∀ j, (operator_times m lhs rhs).1.data_ j = lhs.data_ j * rhs.get m) ∧
    (operator_times m lhs rhs).2 = m := by
  have h := operator_times_eq_mem (call_frame m lhs) none rhs.in_frame rhs.in_frame_apart
  refine ⟨fun j => ?_, funext fun l => ?_⟩
  · rw [← const_reference.in_frame_get m lhs rhs]; exact h.2 j
  · exact h.1 (some l) (fun e => Option.noConfusion e)

/-! ## Dimension-adapting conversion -/

/-- C1: `make_point2(p)` of a point `p` of dimension `M ≥ 1` is a point `r` of
dimension 2 with `r[i] = p[i]` for every `i < min(M, 2)` and `r[i] = T()` for
every `i` with `min(M, 2) ≤ i < 2`. -/
theorem make_point2_of_point (T : Type) [Inhabited T] (M : Nat) (_hM : 1 ≤ M) (p : point T M) :
    (make_point2 p).dimension = 2 ∧
    (∀ (i : Nat) (h : i < min M 2),
      (make_point2 p).data_ ⟨i, lt_of_lt_of_le h (Nat.min_le_right _ _)⟩ =
        p.data_ ⟨i, lt_of_lt_of_le h (Nat.min_le_left _ _)⟩) ∧
    (∀ (i : Nat) (h : i < 2), min M 2 ≤ i → (make_point2 p).data_ ⟨i, h⟩ = default) := by
  refine ⟨rfl, ?_, ?_⟩
  · intro i h
    rw [make_point2_data, dif_pos (lt_of_lt_of_le h (Nat.min_le_left _ _))]
  · intro i h hle
    rw [make_point2_data, dif_neg (by simp only; omega)]

/-- C1, concrete case: the 3D point (1, 2, 3) yields the 2D point (1, 2). -/
theorem make_point2_of_point_witness :
    1 ≤ 3 ∧
    (make_point2 (point.ctor3 (N := 3) (Nat.le_refl 3) (1 : Int) 2 3)).dimension = 2 ∧
    (x_const Int () (by decide)).get
      (Mem.single (make_point2 (point.ctor3 (N := 3) (Nat.le_refl 3) (1 : Int) 2 3))) = 1 ∧
    (y_const Int () (by decide)).get
      (Mem.single (make_point2 (point.ctor3 (N := 3) (Nat.le_refl 3) (1 : Int) 2 3))) = 2 :=
  have h := make_point2_of_point Int 3 (by decide)
    (point.ctor3 (N := 3) (Nat.le_refl 3) (1 : Int) 2 3)
  ⟨by decide, h.1, (h.2.1 0 (by decide)).trans (by decide),
    (h.2.1 1 (by decide)).trans (by decide)⟩

/-- C2: `make_point3(p)` of a point `p` of dimension `M ≥ 1` is a point `r` of
dimension 3 with `r[i] = p[i]` for every `i < min(M, 3)` and `r[i] = T()` for
every `i` with `min(M, 3) ≤ i < 3`. -/
theorem make_point3_of_point (T : Type) [Inhabited T] (M : Nat) (_hM : 1 ≤ M) (p : point T M) :
    (make_point3 p).dimension = 3 ∧
    (∀ (i : Nat) (h : i < min M 3),
      (make_point3 p).data_ ⟨i, lt_of_lt_of_le h (Nat.min_le_right _ _)⟩ =
        p.data_ ⟨i, lt_of_lt_of_le h (Nat.min_le_left _ _)⟩) ∧
    (∀ (i : Nat) (h : i < 3), min M 3 ≤ i → (make_point3 p).data_ ⟨i, h⟩ = default) := by
  refine ⟨rfl, ?_, ?_⟩
  · intro i h
    rw [make_point3_data, dif_pos (lt_of_lt_of_le h (Nat.min_le_left _ _))]
  · intro i h hle
    rw [make_point3_data, dif_neg (by simp only; omega)]

/-- C2, concrete case: the 2D point (5, 6) yields the 3D point (5, 6, 0). -/
theorem make_point3_of_point_witness :
    1 ≤ 2 ∧
    (x_const Int () (by decide)).get
      (Mem.single (make_point3 (point.ctor2 (N := 2) (Nat.le_refl 2) (5 : Int) 6))) = 5 ∧
    (y_const Int () (by decide)).get
      (Mem.single (make_point3 (point.ctor2 (N := 2) (Nat.le_refl 2) (5 : Int) 6))) = 6 ∧
    (z_const Int () (by decide)).get
      (Mem.single (make_point3 (point.ctor2 (N := 2) (Nat.le_refl 2) (5 : Int) 6))) = 0 :=
  have h := make_point3_of_point Int 2 (by decide)
    (point.ctor2 (N := 2) (Nat.le_refl 2) (5 : Int) 6)
  ⟨by decide, (h.2.1 0 (by decide)).trans (by decide),
    (h.2.1 1 (by decide)).trans (by decide), h.2.2 2 (by decide) (by decide)⟩

/-! ## Construction -/

/-- C3: for `N ≥ 1` the default-constructed `point<T, N>` has every component
`i < N` equal to `T()`, and `dimension()` returns `N`. -/
theorem default_ctor_spec (T : Type) [Inhabited T] (N : Nat) (hN : 1 ≤ N) :
    (∀ i : Fin N, (point.ctor (Nat.one_le_iff_ne_zero.mp hN) : point T N).data_ i = default) ∧
    (point.ctor (Nat.one_le_iff_ne_zero.mp hN) : point T N).dimension = N :=
  ⟨fun i => point.ctor_data _ i, rfl⟩

/-- C3, concrete case: the default `point<int, 2>` has `x() == 0` and `y() == 0`. -/
theorem default_ctor_spec_witness :
    1 ≤ 2 ∧
    (x_const Int () (by decide)).get (Mem.single (point.ctor (by decide) : point Int 2)) = 0 ∧
    (y_const Int () (by decide)).get (Mem.single (point.ctor (by decide) : point Int 2)) = 0 ∧
    (point.ctor (by decide) : point Int 2).dimension = 2 :=
  have h := default_ctor_spec Int 2 (by decide)
  ⟨by decide, h.1 0, h.1 1, h.2⟩

/-! ## Arithmetic -/

/-- C4: for points `p`, `q` of dimension `N` held in distinct objects, after
`p += q` component `i` of `p` is `(old p[i]) + q[i]` for every `i < N`, `q`
(and every object other than `p`) is unchanged, and the returned reference
designates the post-mutation `p`. -/
theorem operator_plus_eq_spec (L T : Type) [DecidableEq L] [Add T] (N : Nat) (m : Mem L T N)
    (p q : L) (hpq : q ≠ p) :
    (∀ i : Fin N, ((operator_plus_eq m p q).1 p).data_ i = (m p).data_ i + (m q).data_ i) ∧
    (operator_plus_eq m p q).1 q = m q ∧
    (∀ l, l ≠ p → (operator_plus_eq m p q).1 l = m l) ∧
    (operator_plus_eq m p q).2 = p ∧
    (operator_plus_eq m p q).1 (operator_plus_eq m p q).2 = (operator_plus_eq m p q).1 p :=
  have h := operator_plus_eq_mem m p q
  ⟨h.2, h.1 q hpq, h.1, rfl, rfl⟩

/-- C4, concrete case: with `a = (1, 2)` and `b = (3, 4)`, `a += b` leaves
`a == (4, 6)` and `b == (3, 4)`, and `a + b` has `x() == 4` and `y() == 6`. -/
theorem operator_plus_eq_spec_witness :
    true ≠ false ∧
    (x_const Int false (by decide)).get (operator_plus_eq mem_ab false true).1 = 4 ∧
    (y_const Int false (by decide)).get (operator_plus_eq mem_ab false true).1 = 6 ∧
    (operator_plus_eq mem_ab false true).1 true = mem_ab true ∧
    (x_const Int () (by decide)).get
      (Mem.single (operator_plus mem_ab (mem_ab false) true).1) = 4 ∧
    (y_const Int () (by decide)).get
      (Mem.single (operator_plus mem_ab (mem_ab false) true).1) = 6 :=
  have h := operator_plus_eq_spec Bool Int 2 mem_ab false true (by decide)
  ⟨by decide, (h.1 0).trans (by decide), (h.1 1).trans (by decide), h.2.1, by decide, by decide⟩

/-- C5: for points `p`, `q` of dimension `N` held in distinct objects, after
`p -= q` component `i` of `p` is `(old p[i]) - q[i]` for every `i < N`, `q`
(and every object other than `p`) is unchanged, and the returned reference
designates the post-mutation `p`. -/
theorem operator_minus_eq_spec (L T : Type) [DecidableEq L] [Sub T] (N : Nat) (m : Mem L T N)
    (p q : L) (hpq : q ≠ p) :
    (∀ i : Fin N, ((operator_minus_eq m p q).1 p).data_ i = (m p).data_ i - (m q).data_ i) ∧
    (operator_minus_eq m p q).1 q = m q ∧
    (∀ l, l ≠ p → (operator_minus_eq m p q).1 l = m l) ∧
    (operator_minus_eq m p q).2 = p ∧
    (operator_minus_eq m p q).1 (operator_minus_eq m p q).2 = (operator_minus_eq m p q).1 p :=
  have h := operator_minus_eq_mem m p q
  ⟨h.2, h.1 q hpq, h.1, rfl, rfl⟩

/-- C5, concrete case: with `a = (1, 2)` and `b = (3, 4)`, `a -= b` leaves
`a == (-2, -2)` and `b == (3, 4)`. -/
theorem operator_minus_eq_spec_witness :
    true ≠ false ∧
    (x_const Int false (by decide)).get (operator_minus_eq mem_ab false true).1 = -2 ∧
    (y_const Int false (by decide)).get (operator_minus_eq mem_ab false true).1 = -2 ∧
    (operator_minus_eq mem_ab false true).1 true = mem_ab true :=
  have h := operator_minus_eq_spec Bool Int 2 mem_ab false true (by decide)
  ⟨by decide, (h.1 0).trans (by decide), (h.1 1).trans (by decide), h.2.1⟩

/-- C6: for a point `p` of dimension `N` and a scalar `s` held outside `p`
(in particular over the integers), `(p * s)[i] == p[i] * s` for every `i < N`,
and `p *= s` leaves `p` equal to `p * s` and returns a reference to that
post-mutation `p`. -/
theorem scalar_multiplication_spec (L T : Type) [DecidableEq L] [Mul T] (N : Nat)
    (m : Mem L T N) (p : L) (s : const_reference L T N) (hs : s.apart p) :
    (∀ i : Fin N, (operator_times m (m p) s).1.data_ i = (m p).data_ i * s.get m) ∧
    (operator_times_eq m p s).1 p = (operator_times m (m p) s).1 ∧
    (operator_times_eq m p s).2 = p ∧
    (operator_times_eq m p s).1 (operator_times_eq m p s).2 = (operator_times m (m p) s).1 := by
  have h1 := operator_times_mem m (m p) s
  have h2 := operator_times_eq_mem m p s hs
  have e : (operator_times_eq m p s).1 p = (operator_times m (m p) s).1 :=
    point.ext_data _ _ (fun j => by rw [h2.2 j, h1.1 j])
  exact ⟨h1.1, e, rfl, e⟩

/-- C6, concrete case: with `a = (1, 2, 3)`, `a *= 2` gives `x() == 2`,
`y() == 4` and `z() == 6`. -/
theorem scalar_multiplication_spec_witness :
    (const_reference.outside 2 : const_reference Unit Int 3).apart () ∧
    (x_const Int () (by decide)).get
      (operator_times_eq (Mem.single (point.ctor3 (Nat.le_refl 3) (1 : Int) 2 3)) ()
        (const_reference.outside 2)).1 = 2 ∧
    (y_const Int () (by decide)).get
      (operator_times_eq (Mem.single (point.ctor3 (Nat.le_refl 3) (1 : Int) 2 3)) ()
        (const_reference.outside 2)).1 = 4 ∧
    (z_const Int () (by decide)).get
      (operator_times_eq (Mem.single (point.ctor3 (Nat.le_refl 3) (1 : Int) 2 3)) ()
        (const_reference.outside 2)).1 = 6 :=
  have h := scalar_multiplication_spec Unit Int 3
    (Mem.single (point.ctor3 (Nat.le_refl 3) (1 : Int) 2 3)) () (const_reference.outside 2)
    trivial
  ⟨trivial, (congrArg (fun q => q.data_ 0) h.2.1).trans ((h.1 0).trans (by decide)),
    (congrArg (fun q => q.data_ 1) h.2.1).trans ((h.1 1).trans (by decide)),
    (congrArg (fun q => q.data_ 2) h.2.1).trans ((h.1 2).trans (by decide))⟩

/-- C7: for points `p`, `q` of dimension `N` over the integers,
`(p + q) - q == p` component-wise (and the operands are left as they were). -/
theorem add_sub_round_trip (L : Type) [DecidableEq L] (N : Nat) (m : Mem L Int N) (p q : L) :
    (∀ i : Fin N,
      (operator_minus (operator_plus m (m p) q).2 (operator_plus m (m p) q).1 q).1.data_ i =
        (m p).data_ i) ∧
    (operator_minus (operator_plus m (m p) q).2 (operator_plus m (m p) q).1 q).2 = m := by
  have h1 := operator_plus_mem m (m p) q
  have h2 := operator_minus_mem (operator_plus m (m p) q).2 (operator_plus m (m p) q).1 q
  refine ⟨fun i => ?_, h2.2.trans h1.2⟩
  rw [h2.1 i, h1.1 i, h1.2]
  exact Int.add_sub_cancel _ _

/-- C7, concrete case: with `a = (1, 2)` and `b = (3, 4)`, `(a + b) - b` is
(1, 2), also when both operands are `a`. -/
theorem add_sub_round_trip_witness :
    (operator_minus (operator_plus mem_ab (mem_ab false) true).2
      (operator_plus mem_ab (mem_ab false) true).1 true).1.data_ 0 = 1 ∧
    (operator_minus (operator_plus mem_ab (mem_ab false) true).2
      (operator_plus mem_ab (mem_ab false) true).1 true).1.data_ 1 = 2 ∧
    (operator_minus (operator_plus mem_ab (mem_ab false) false).2
      (operator_plus mem_ab (mem_ab false) false).1 false).1.data_ 1 = 2 :=
  ⟨((add_sub_round_trip Bool 2 mem_ab false true).1 0).trans (by decide),
    ((add_sub_round_trip Bool 2 mem_ab false true).1 1).trans (by decide),
    ((add_sub_round_trip Bool 2 mem_ab false false).1 1).trans (by decide)⟩

/-- C8: `p + q`, `p - q` and `p * s` are the values `p` would hold after
`p += q`, `p -= q` and (for `s` held outside `p`) `p *= s`; evaluating `p + q`,
`p - q` or `p * s` leaves every object of the caller, `p` and `q` included,
with its original value. -/
theorem friend_operators_spec (L T : Type) [DecidableEq L] [Add T] [Sub T] [Mul T] (N : Nat)
    (m : Mem L T N) (p q : L) (s : const_reference L T N) :
    (operator_plus m (m p) q).1 = (operator_plus_eq m p q).1 p ∧
    (operator_minus m (m p) q).1 = (operator_minus_eq m p q).1 p ∧
    (s.apart p → (operator_times m (m p) s).1 = (operator_times_eq m p s).1 p) ∧
    (operator_plus m (m p) q).2 = m ∧
    (operator_minus m (m p) q).2 = m ∧
    (operator_times m (m p) s).2 = m := by
  have ha := operator_plus_mem m (m p) q
  have hs := operator_minus_mem m (m p) q
  have ht := operator_times_mem m (m p) s
  refine ⟨?_, ?_, ?_, ha.2, hs.2, ht.2⟩
  · exact point.ext_data _ _ (fun j => by rw [ha.1 j, (operator_plus_eq_mem m p q).2 j])
  · exact point.ext_data _ _ (fun j => by rw [hs.1 j, (operator_minus_eq_mem m p q).2 j])
  · intro hsp
    exact point.ext_data _ _ (fun j => by rw [ht.1 j, (operator_times_eq_mem m p s hsp).2 j])

/-- C8, concrete case: with `a = (1, 2)`, `b = (3, 4)` and the scalar 5 held
outside `a`, the friend operators return the values of the compound forms and
leave `a` and `b` as they were. -/
theorem friend_operators_spec_witness :
    (const_reference.outside 5 : const_reference Bool Int 2).apart false ∧
    (operator_plus mem_ab (mem_ab false) true).1 = (operator_plus_eq mem_ab false true).1 false ∧
    (operator_minus mem_ab (mem_ab false) true).1 =
      (operator_minus_eq mem_ab false true).1 false ∧
    (operator_times mem_ab (mem_ab false) (const_reference.outside 5)).1 =
      (operator_times_eq mem_ab false (const_reference.outside 5)).1 false ∧
    (operator_plus mem_ab (mem_ab false) true).2 = mem_ab ∧
    (operator_times mem_ab (mem_ab false) (const_reference.outside 5)).1.data_ 1 = 10 :=
  have h := friend_operators_spec Bool Int 2 mem_ab false true (const_reference.outside 5)
  ⟨trivial, h.1, h.2.1, h.2.2.1 trivial, h.2.2.2.1, by decide⟩

/-! ## Construction from values -/

/-- C9: for `N ≥ 2`, `point<T, N>(x, y)` has component 0 equal to `x`,
component 1 equal to `y` and every component `i` with `2 ≤ i < N` equal to
`T()`; the copy form and the forwarding form produce the same point. -/
theorem two_value_ctor_spec (T : Type) [Inhabited T] (N : Nat) (hN : 2 ≤ N) (x y : T) :
    (point.ctor2 hN x y : point T N).data_ ⟨0, by omega⟩ = x ∧
    (point.ctor2 hN x y : point T N).data_ ⟨1, by omega⟩ = y ∧
    (∀ i : Fin N, 2 ≤ i.val → (point.ctor2 hN x y : point T N).data_ i = default) ∧
    (point.ctor2_fwd id hN x y : point T N) = point.ctor2 hN x y := by
  refine ⟨?_, ?_, ?_, rfl⟩
  · simp [point.ctor2, point.assign_data]
  · simp [point.ctor2, point.assign_data]
  · intro i hi
    have h0 : i ≠ ⟨0, by omega⟩ := fun h => by have := congrArg Fin.val h; simp at this; omega
    have h1 : i ≠ ⟨1, by omega⟩ := fun h => by have := congrArg Fin.val h; simp at this; omega
    simp [point.ctor2, point.assign_data, h0, h1, point.value_init]

/-- C9, concrete case: `point<int, 3>(7, 8)` is (7, 8, 0) in both forms. -/
theorem two_value_ctor_spec_witness :
    2 ≤ 3 ∧
    (point.ctor2 (N := 3) (by decide) (7 : Int) 8).data_ 0 = 7 ∧
    (point.ctor2 (N := 3) (by decide) (7 : Int) 8).data_ 1 = 8 ∧
    (point.ctor2 (N := 3) (by decide) (7 : Int) 8).data_ 2 = 0 ∧
    (point.ctor2_fwd (N := 3) id (by decide) (7 : Int) 8) = point.ctor2 (by decide) 7 8 :=
  have h := two_value_ctor_spec Int 3 (by decide) 7 8
  ⟨by decide, h.1, h.2.1, h.2.2.1 2 (by decide), h.2.2.2⟩

/-- C10: for `N ≥ 3`, `point<T, N>(x, y, z)` has components 0, 1, 2 equal to
`x`, `y`, `z` and every component `i` with `3 ≤ i < N` equal to `T()`; the copy
form and the forwarding form produce the same point. -/
theorem three_value_ctor_spec (T : Type) [Inhabited T] (N : Nat) (hN : 3 ≤ N) (x y z : T) :
    (point.ctor3 hN x y z : point T N).data_ ⟨0, by omega⟩ = x ∧
    (point.ctor3 hN x y z : point T N).data_ ⟨1, by omega⟩ = y ∧
    (point.ctor3 hN x y z : point T N).data_ ⟨2, by omega⟩ = z ∧
    (∀ i : Fin N, 3 ≤ i.val → (point.ctor3 hN x y z : point T N).data_ i = default) ∧
    (point.ctor3_fwd id hN x y z : point T N) = point.ctor3 hN x y z := by
  refine ⟨?_, ?_, ?_, ?_, rfl⟩
  · simp [point.ctor3, point.assign_data]
  · simp [point.ctor3, point.assign_data]
  · simp [point.ctor3, point.assign_data]
  · intro i hi
    have h0 : i ≠ ⟨0, by omega⟩ := fun h => by have := congrArg Fin.val h; simp at this; omega
    have h1 : i ≠ ⟨1, by omega⟩ := fun h => by have := congrArg Fin.val h; simp at this; omega
    have h2 : i ≠ ⟨2, by omega⟩ := fun h => by have := congrArg Fin.val h; simp at this; omega
    simp [point.ctor3, point.assign_data, h0, h1, h2, point.value_init]

/-- C10, concrete case: `point<int, 4>(7, 8, 9)` is (7, 8, 9, 0) in both forms. -/
theorem three_value_ctor_spec_witness :
    3 ≤ 4 ∧
    (point.ctor3 (N := 4) (by decide) (7 : Int) 8 9).data_ 0 = 7 ∧
    (point.ctor3 (N := 4) (by decide) (7 : Int) 8 9).data_ 1 = 8 ∧
    (point.ctor3 (N := 4) (by decide) (7 : Int) 8 9).data_ 2 = 9 ∧
    (point.ctor3 (N := 4) (by decide) (7 : Int) 8 9).data_ 3 = 0 ∧
    (point.ctor3_fwd (N := 4) id (by decide) (7 : Int) 8 9) = point.ctor3 (by decide) 7 8 9 :=
  have h := three_value_ctor_spec Int 4 (by decide) 7 8 9
  ⟨by decide, h.1, h.2.1, h.2.2.1, h.2.2.2.1 3 (by decide), h.2.2.2.2⟩

/-! ## Building from components -/

/-- C11: `make_point2(a, b)` is a point of dimension 2 with `x() == a` and
`y() == b`, and `make_point3(a, b, c)` is a point of dimension 3 with
`x() == a`, `y() == b` and `z() == c`. -/
theorem make_point_values_spec (T : Type) [Inhabited T] (a b c : T) :
    (make_point2_values a b).dimension = 2 ∧
    (x_const T () (by decide)).get (Mem.single (make_point2_values a b)) = a ∧
    (y_const T () (by decide)).get (Mem.single (make_point2_values a b)) = b ∧
    (make_point3_values a b c).dimension = 3 ∧
    (x_const T () (by decide)).get (Mem.single (make_point3_values a b c)) = a ∧
    (y_const T () (by decide)).get (Mem.single (make_point3_values a b c)) = b ∧
    (z_const T () (by decide)).get (Mem.single (make_point3_values a b c)) = c := by
  refine ⟨rfl, ?_, ?_, rfl, ?_, ?_, ?_⟩ <;>
    simp [x_const, y_const, z_const, const_reference.get, Mem.single, make_point2_values,
      make_point3_values, point.ctor2_fwd, point.ctor3_fwd, point.assign_data]

/-- C11, concrete case: `make_point2(7, 8)` and `make_point3(7, 8, 9)`. -/
theorem make_point_values_spec_witness :
    (y_const Int () (by decide)).get (Mem.single (make_point2_values (7 : Int) 8)) = 8 ∧
    (z_const Int () (by decide)).get (Mem.single (make_point3_values (7 : Int) 8 9)) = 9 :=
  ⟨(make_point_values_spec Int 7 8 9).2.2.1, (make_point_values_spec Int 7 8 9).2.2.2.2.2.2⟩

/-! ## Copies -/

/-- `operator*=` writes no object but its receiver, whatever the scalar
reference designates. -/
theorem operator_times_eq_frame {L T : Type} {N : Nat} [DecidableEq L] [Mul T] (m : Mem L T N)
    (this : L) (v : const_reference L T N) (l : L) (hl : l ≠ this) :
    (operator_times_eq m this v).1 l = m l := by
  unfold operator_times_eq
  exact for_range_invariant N
    (fun i m1 => reference.set m1 ⟨this, i⟩ (reference.get m1 ⟨this, i⟩ * v.get m1))
    (fun _ m1 => m1 l = m l)
    (by
      intro i m1 h1
      beta_reduce
      rw [reference.set_other m1 ⟨this, i⟩ _ l hl]
      exact h1)
    m rfl

/-- No mutation of the object at `this` writes another object. -/
theorem mutation.run_frame {L T : Type} {N : Nat} [DecidableEq L] [Add T] [Sub T] [Mul T]
    (this : L) (m : Mem L T N) (mu : mutation L T N) (l : L) (hl : l ≠ this) :
    mu.run this m l = m l := by
  cases mu with
  | write i v => exact reference.set_other m ⟨this, i⟩ v l hl
  | plus_eq q => exact (operator_plus_eq_mem m this q).1 l hl
  | minus_eq q => exact (operator_minus_eq_mem m this q).1 l hl
  | times_eq s => exact operator_times_eq_frame m this s l hl

/-- No sequence of mutations of the object at `this` writes another object. -/
theorem mutation.run_all_frame {L T : Type} {N : Nat} [DecidableEq L] [Add T] [Sub T] [Mul T]
    (this : L) (mus : List (mutation L T N)) (m : Mem L T N) (l : L) (hl : l ≠ this) :
    mus.foldl (mutation.run this) m l = m l := by
  induction mus generalizing m with
  | nil => rfl
  | cons mu rest ih =>
    rw [List.foldl_cons, ih (mutation.run this m mu), mutation.run_frame this m mu l hl]

/-- C12: a copy `p2` of `p`, made by copy construction (`p2` a new object) or
by copy assignment (to an object `p2` other than `p`), has `p2[i] == p[i]` for
every `i < N` and leaves `p` as it was; any sequence of later mutations of
`p2` (component writes, `+=`, `-=`, `*=`, with any operands) leaves every
component of `p` unchanged. -/
theorem copy_independent (L T : Type) [DecidableEq L] [Add T] [Sub T] [Mul T] (N : Nat)
    (m : Mem L T N) (p p2 : L) (mus : List (mutation L T N))
    (mus_new : List (mutation (Option L) T N)) :
    (∀ i : Fin N, (declare_copy m p none).data_ i = (m p).data_ i) ∧
    declare_copy m p (some p) = m p ∧
    mus_new.foldl (mutation.run none) (declare_copy m p) (some p) = m p ∧
    (∀ i : Fin N, ((operator_assign m p2 p).1 p2).data_ i = (m p).data_ i) ∧
    (p2 ≠ p → (operator_assign m p2 p).1 p = m p) ∧
    (p2 ≠ p → mus.foldl (mutation.run p2) (operator_assign m p2 p).1 p = m p) := by
  refine ⟨fun _ => rfl, rfl, ?_, ?_, ?_, ?_⟩
  · rw [mutation.run_all_frame none mus_new _ (some p) (fun e => Option.noConfusion e)]
    rfl
  · intro i
    simp [operator_assign]
  · intro h
    simp [operator_assign, Ne.symm h]
  · intro h
    rw [mutation.run_all_frame p2 mus _ p (Ne.symm h)]
    simp [operator_assign, Ne.symm h]

/-- C12, concrete case: with `a = (1, 2)` and `b = (3, 4)`, after `b = a;
b[0] = 9; b += a; b *= b[1];` and after `point c = a; c -= c; c += a;` the
point `a` is still (1, 2), and right after `b = a` the point `b` is (1, 2). -/
theorem copy_independent_witness :
    true ≠ false ∧
    ((operator_assign mem_ab true false).1 true).data_ 1 = 2 ∧
    [mutation.write 0 9, mutation.plus_eq false,
      mutation.times_eq (const_reference.component true 1)].foldl
      (mutation.run true) (operator_assign mem_ab true false).1 false = mem_ab false ∧
    [mutation.minus_eq none, mutation.plus_eq (some false)].foldl
      (mutation.run none) (declare_copy mem_ab false) (some false) = mem_ab false :=
  have h := copy_independent Bool Int 2 mem_ab false true
    [mutation.write 0 9, mutation.plus_eq false,
      mutation.times_eq (const_reference.component true 1)]
    [mutation.minus_eq none, mutation.plus_eq (some false)]
  ⟨by decide, (h.2.2.2.1 1).trans (by decide), h.2.2.2.2.2 (by decide), h.2.2.1⟩

/-! ## Accessors -/

/-- C13: `x()` (for `N ≥ 1`), `y()` (for `N ≥ 2`) and `z()` (for `N ≥ 3`)
designate the same component as `p[0]`, `p[1]` and `p[2]`, in the mutable and
in the read-only overload: the references are the same, a read returns that
component, a write through the named accessor is read back through the
subscript and a write through the subscript is read back through the named
accessor. -/
theorem named_accessors_spec (L T : Type) [DecidableEq L] (N : Nat) (m : Mem L T N) (this : L)
    (v : T) :
    (∀ h : 1 ≤ N,
      x this h = operator_subscript this 0 (by omega) ∧
      x_const T this h = operator_subscript_const T this 0 (by omega) ∧
      (x_const T this h).get m = (m this).data_ ⟨0, by omega⟩ ∧
      (x this h).get m = (m this).data_ ⟨0, by omega⟩ ∧
      (operator_subscript_const T this 0 (by omega)).get (reference.set m (x this h) v) = v ∧
      (x_const T this h).get (reference.set m (operator_subscript this 0 (by omega)) v) = v) ∧
    (∀ h : 2 ≤ N,
      y this h = operator_subscript this 1 (by omega) ∧
      y_const T this h = operator_subscript_const T this 1 (by omega) ∧
      (y_const T this h).get m = (m this).data_ ⟨1, by omega⟩ ∧
      (y this h).get m = (m this).data_ ⟨1, by omega⟩ ∧
      (operator_subscript_const T this 1 (by omega)).get (reference.set m (y this h) v) = v ∧
      (y_const T this h).get (reference.set m (operator_subscript this 1 (by omega)) v) = v) ∧
    (∀ h : 3 ≤ N,
      z this h = operator_subscript this 2 (by omega) ∧
      z_const T this h = operator_subscript_const T this 2 (by omega) ∧
      (z_const T this h).get m = (m this).data_ ⟨2, by omega⟩ ∧
      (z this h).get m = (m this).data_ ⟨2, by omega⟩ ∧
      (operator_subscript_const T this 2 (by omega)).get (reference.set m (z this h) v) = v ∧
      (z_const T this h).get (reference.set m (operator_subscript this 2 (by omega)) v) = v) := by
  refine ⟨fun h => ⟨rfl, rfl, rfl, rfl, ?_, ?_⟩, fun h => ⟨rfl, rfl, rfl, rfl, ?_, ?_⟩,
    fun h => ⟨rfl, rfl, rfl, rfl, ?_, ?_⟩⟩ <;>
  simp [x, y, z, x_const, y_const, z_const, operator_subscript, operator_subscript_const,
    const_reference.get, reference.set, point.assign_data]

/-- C13, concrete case: in `a = (1, 2)`, `a.y()` reads 2, and after
`a.y() = 7` the subscript `a[1]` reads 7. -/
theorem named_accessors_spec_witness :
    2 ≤ 2 ∧
    (y_const Int false (by decide)).get mem_ab = 2 ∧
    (operator_subscript_const Int false 1 (by decide)).get
      (reference.set mem_ab (y false (by decide)) 7) = 7 :=
  have h := (named_accessors_spec Bool Int 2 mem_ab false 7).2.1 (by decide)
  ⟨by decide, h.2.2.1.trans (by decide), h.2.2.2.2.1⟩

/-! ## Dimension gating -/

/-- C14: each gated member is admitted exactly when `N` meets its minimum
(default constructor `N ≠ 0`; `x` `N ≥ 1`; `y` and the two-value constructors
`N ≥ 2`; `z` and the three-value constructors `N ≥ 3`); whenever a member is
admitted every subscript of `data_` its body evaluates is `< N`; `z()` is not
admitted on a point of dimension 2; and the named accessors of the embedding
take the static assertion as their argument and return the component their
body subscripts. -/
theorem dimension_gating (L : Type) (N : Nat) (this : L) :
    (gated_member.default_ctor.static_assert N ↔ N ≠ 0) ∧
    ((gated_member.x.static_assert N ↔ 1 ≤ N) ∧
      (gated_member.x_const.static_assert N ↔ 1 ≤ N)) ∧
    ((gated_member.y.static_assert N ↔ 2 ≤ N) ∧
      (gated_member.y_const.static_assert N ↔ 2 ≤ N) ∧
      (gated_member.ctor2.static_assert N ↔ 2 ≤ N) ∧
      (gated_member.ctor2_fwd.static_assert N ↔ 2 ≤ N)) ∧
    ((gated_member.z.static_assert N ↔ 3 ≤ N) ∧
      (gated_member.z_const.static_assert N ↔ 3 ≤ N) ∧
      (gated_member.ctor3.static_assert N ↔ 3 ≤ N) ∧
      (gated_member.ctor3_fwd.static_assert N ↔ 3 ≤ N)) ∧
    (∀ g : gated_member, g.static_assert N → ∀ i ∈ g.subscripts N, i < N) ∧
    (¬ gated_member.z.static_assert 2 ∧ ¬ gated_member.z_const.static_assert 2) ∧
    ((∀ h : gated_member.x.static_assert N,
        gated_member.x.subscripts N = [(x this h).idx.val]) ∧
      (∀ h : gated_member.y.static_assert N,
        gated_member.y.subscripts N = [(y this h).idx.val]) ∧
      (∀ h : gated_member.z.static_assert N,
        gated_member.z.subscripts N = [(z this h).idx.val])) := by
  refine ⟨Iff.rfl, ⟨Iff.rfl, Iff.rfl⟩, ⟨Iff.rfl, Iff.rfl, Iff.rfl, Iff.rfl⟩,
    ⟨Iff.rfl, Iff.rfl, Iff.rfl, Iff.rfl⟩, ?_, ⟨by decide, by decide⟩,
    ⟨fun _ => rfl, fun _ => rfl, fun _ => rfl⟩⟩
  intro g hg i hi
  cases g <;>
    simp only [gated_member.static_assert, assert0, assert1, assert2, assert3] at hg <;>
    simp only [gated_member.subscripts, List.mem_range, List.mem_cons, List.mem_singleton,
      List.not_mem_nil, or_false] at hi <;>
    omega

/-- C14, concrete case: on a point of dimension 2, `y()` is admitted and its
subscript 1 is in range, and `z()` is not admitted. -/
theorem dimension_gating_witness :
    gated_member.y.static_assert 2 ∧ (1 ∈ gated_member.y.subscripts 2 ∧ 1 < 2) ∧
    ¬ gated_member.z.static_assert 2 :=
  have h := dimension_gating Unit 2 ()
  ⟨by decide, ⟨by decide, h.2.2.2.2.1 gated_member.y (by decide) 1 (by decide)⟩,
    h.2.2.2.2.2.1.1⟩

/-! ## Scalar multiplication by a component of the receiver -/

/-- What `p *= p[k]` computes: the scalar is read again at every iteration, so
the components up to `k` are multiplied by the old `p[k]` and the components
after `k` by the new `p[k]`, which is the old `p[k]` times itself. -/
theorem operator_times_eq_own_component {L T : Type} {N : Nat} [DecidableEq L] [Mul T]
    (m : Mem L T N) (this : L) (k : Fin N) (j : Fin N) :
    ((operator_times_eq m this (const_reference.component this k)).1 this).data_ j =
      if j.val ≤ k.val then (m this).data_ j * (m this).data_ k
      else (m this).data_ j * ((m this).data_ k * (m this).data_ k) := by
  unfold operator_times_eq
  have key := for_range_invariant N
    (fun i m1 => reference.set m1 ⟨this, i⟩
      (reference.get m1 ⟨this, i⟩ * (const_reference.component this k).get m1))
    (fun i m1 => ∀ j : Fin N, (m1 this).data_ j =
      if j.val < i then
        (if j.val ≤ k.val then (m this).data_ j * (m this).data_ k
          else (m this).data_ j * ((m this).data_ k * (m this).data_ k))
      else (m this).data_ j)
    (by
      intro i m1 h1 j
      beta_reduce
      have hset := reference.set_obj m1 ⟨this, i⟩
        (reference.get m1 ⟨this, i⟩ * (const_reference.component this k).get m1) j
      simp only at hset
      rw [hset]
      by_cases hji : j = i
      · subst hji
        have hj := h1 j
        have hk := h1 k
        rw [if_neg (Nat.lt_irrefl _)] at hj
        rw [if_pos rfl, if_pos (show j.val < j.val + 1 by omega)]
        simp only [reference.get, const_reference.get]
        rw [hj, hk]
        by_cases hjk : j.val ≤ k.val
        · rw [if_neg (show ¬ k.val < j.val by omega), if_pos hjk]
        · rw [if_pos (show k.val < j.val by omega), if_pos (Nat.le_refl k.val), if_neg hjk]
      · have hne : j.val ≠ i.val := fun h => hji (Fin.ext h)
        rw [if_neg hji, h1 j]
        by_cases hlt : j.val < i.val
        · rw [if_pos hlt, if_pos (show j.val < i.val + 1 by omega)]
        · rw [if_neg hlt, if_neg (show ¬ j.val < i.val + 1 by omega)])
    m (fun j => by simp)
  rw [key j, if_pos j.isLt]

/-- C15, failing input: on `p = (2, 3)`, `p *= p[0]` leaves `p == (4, 12)`:
component 1 is multiplied by 4, the value `p[0]` has after the first
iteration, and not by 2, the value `p[0]` had before the call, while
`p * p[0]` is (4, 6). -/
theorem times_eq_own_component_diverges :
    ((operator_times_eq (Mem.single (point.ctor2 (Nat.le_refl 2) (2 : Int) 3)) ()
      (operator_subscript_const Int () 0 (by decide))).1 ()).data_ 0 = 4 ∧
    ((operator_times_eq (Mem.single (point.ctor2 (Nat.le_refl 2) (2 : Int) 3)) ()
      (operator_subscript_const Int () 0 (by decide))).1 ()).data_ 1 = 12 ∧
    ((operator_times_eq (Mem.single (point.ctor2 (Nat.le_refl 2) (2 : Int) 3)) ()
      (operator_subscript_const Int () 0 (by decide))).1 ()).data_ 1 ≠
      (Mem.single (point.ctor2 (Nat.le_refl 2) (2 : Int) 3) ()).data_ 1 *
        (Mem.single (point.ctor2 (Nat.le_refl 2) (2 : Int) 3) ()).data_ 0 ∧
    (operator_times (Mem.single (point.ctor2 (Nat.le_refl 2) (2 : Int) 3))
      (point.ctor2 (Nat.le_refl 2) (2 : Int) 3)
      (operator_subscript_const Int () 0 (by decide))).1.data_ 1 = 6 := by
  decide

/-! ## Indexed access -/

/-- C16: for `i < N`, after writing `v` through the mutable `p[i]`, reading
`p[i]` (through either overload) yields `v`, `p[j]` is unchanged for every
`j < N` with `j ≠ i`, and no other object is changed; the read-only `p[i]`
returns component `i` (a read yields a value only, the memory is not part of
its result). -/
theorem operator_subscript_spec (L T : Type) [DecidableEq L] (N : Nat) (m : Mem L T N)
    (this : L) (i : Nat) (hi : i < N) (v : T) :
    (operator_subscript_const T this i hi).get
      (reference.set m (operator_subscript this i hi) v) = v ∧
    (operator_subscript this i hi).get (reference.set m (operator_subscript this i hi) v) = v ∧
    (∀ (j : Nat) (hj : j < N), j ≠ i →
      (operator_subscript_const T this j hj).get
        (reference.set m (operator_subscript this i hi) v) =
      (operator_subscript_const T this j hj).get m) ∧
    (∀ l, l ≠ this → reference.set m (operator_subscript this i hi) v l = m l) ∧
    (operator_subscript_const T this i hi).get m = (m this).data_ ⟨i, hi⟩ ∧
    (operator_subscript this i hi).get m = (m this).data_ ⟨i, hi⟩ := by
  refine ⟨?_, ?_, ?_, ?_, rfl, rfl⟩
  · simp [operator_subscript, operator_subscript_const, const_reference.get, reference.set,
      point.assign_data]
  · simp [operator_subscript, reference.get, reference.set, point.assign_data]
  · intro j hj hji
    simp [operator_subscript, operator_subscript_const, const_reference.get, reference.set,
      point.assign_data, hji]
  · intro l hl
    exact reference.set_other m _ v l hl

/-- C16, concrete case: in `a = (1, 2)`, after `a[1] = 7` the point `a` is
(1, 7) and `b` is still (3, 4). -/
theorem operator_subscript_spec_witness :
    1 < 2 ∧
    (operator_subscript_const Int false 1 (by decide)).get
      (reference.set mem_ab (operator_subscript false 1 (by decide)) 7) = 7 ∧
    (operator_subscript_const Int false 0 (by decide)).get
      (reference.set mem_ab (operator_subscript false 1 (by decide)) 7) = 1 ∧
    reference.set mem_ab (operator_subscript false 1 (by decide)) 7 true = mem_ab true :=
  have h := operator_subscript_spec Bool Int 2 mem_ab false 1 (by decide) 7
  ⟨by decide, h.1, (h.2.2.1 0 (by decide) (by decide)).trans (by decide),
    h.2.2.2.1 true (by decide)⟩

/-! ## Round trips of the conversions -/

/-- C17: for a 2-dimensional point `p`, `make_point2(make_point3(p)) == p`;
for a 3-dimensional point `q`, `make_point3(make_point2(q))` is `q` with
component 2 replaced by `T()`: components 0 and 1 are those of `q`. -/
theorem pad_truncate_round_trip (T : Type) [Inhabited T] (p : point T 2) (q : point T 3) :
    make_point2 (make_point3 p) = p ∧
    (make_point3 (make_point2 q)).data_ 0 = q.data_ 0 ∧
    (make_point3 (make_point2 q)).data_ 1 = q.data_ 1 ∧
    (make_point3 (make_point2 q)).data_ 2 = default ∧
    make_point3 (make_point2 q) = q.assign 2 default := by
  have h3 : ∀ j : Fin 3, (make_point3 (make_point2 q)).data_ j = (q.assign 2 default).data_ j := by
    intro j
    rw [make_point3_data, point.assign_data]
    by_cases hj : j.val < 2
    · have hne : j ≠ 2 := fun h => by rw [h] at hj; exact absurd hj (by decide)
      rw [dif_pos hj, if_neg hne, make_point2_data, dif_pos (show j.val < 3 by omega)]
    · have he : j = 2 := Fin.ext (by have := j.isLt; simp only [Fin.val_two]; omega)
      rw [dif_neg hj, if_pos he]
  refine ⟨?_, ?_, ?_, ?_, point.ext_data _ _ h3⟩
  · apply point.ext_data
    intro j
    have hj := j.isLt
    rw [make_point2_data, dif_pos (show j.val < 3 by omega), make_point3_data,
      dif_pos (show j.val < 2 by omega)]
  · rw [h3 0]; rfl
  · rw [h3 1]; rfl
  · rw [h3 2]; rfl

/-- C17, concrete case: (5, 6) padded to (5, 6, 0) and truncated again is
(5, 6); (1, 2, 3) truncated and padded has components 1, 2, 0. -/
theorem pad_truncate_round_trip_witness :
    (make_point2 (make_point3 (point.ctor2 (Nat.le_refl 2) (5 : Int) 6))).data_ 1 = 6 ∧
    (make_point3 (make_point2 (point.ctor3 (Nat.le_refl 3) (1 : Int) 2 3))).data_ 1 = 2 ∧
    (make_point3 (make_point2 (point.ctor3 (Nat.le_refl 3) (1 : Int) 2 3))).data_ 2 = 0 :=
  have h := pad_truncate_round_trip Int (point.ctor2 (Nat.le_refl 2) 5 6)
    (point.ctor3 (Nat.le_refl 3) 1 2 3)
  ⟨(congrArg (fun r => r.data_ 1) h.1).trans (by decide), h.2.2.1.trans (by decide),
    h.2.2.2.1⟩

/-! ## The receiver as its own operand -/

/-- C18: over the integers, after `p += p` every component `i` of `p` is
`2 * (old p[i])`, and after `p -= p` every component is 0, which makes `p` the
default-constructed point; both with the operand read through a reference to
the object being mutated. -/
theorem self_operand_spec (L : Type) [DecidableEq L] (N : Nat) (m : Mem L Int N) (p : L) :
    (∀ i : Fin N, ((operator_plus_eq m p p).1 p).data_ i = 2 * (m p).data_ i) ∧
    (∀ i : Fin N, ((operator_minus_eq m p p).1 p).data_ i = 0) ∧
    (∀ h : N ≠ 0, (operator_minus_eq m p p).1 p = point.ctor h) := by
  have hm : ∀ i : Fin N, ((operator_minus_eq m p p).1 p).data_ i = 0 := by
    intro i
    rw [(operator_minus_eq_mem m p p).2 i]
    exact Int.sub_self _
  refine ⟨?_, hm, ?_⟩
  · intro i
    rw [(operator_plus_eq_mem m p p).2 i]
    omega
  · intro h
    apply point.ext_data
    intro j
    rw [hm j, point.ctor_data]
    rfl

/-- C18, concrete case: with `a = (1, 2)`, `a += a` leaves (2, 4) and
`a -= a` leaves (0, 0). -/
theorem self_operand_spec_witness :
    ((operator_plus_eq mem_ab false false).1 false).data_ 0 = 2 ∧
    ((operator_plus_eq mem_ab false false).1 false).data_ 1 = 4 ∧
    ((operator_minus_eq mem_ab false false).1 false).data_ 1 = 0 ∧
    (operator_minus_eq mem_ab false false).1 false = point.ctor (by decide) :=
  have h := self_operand_spec Bool 2 mem_ab false
  ⟨(h.1 0).trans (by decide), (h.1 1).trans (by decide), h.2.1 1, h.2.2 (by decide)⟩

/-! ## Wrap-around arithmetic -/

theorem uint.ext_val {w : Nat} (a b : uint w) (h : a.val = b.val) : a = b := by
  cases a; cases b; simp only at h; subst h; rfl

/-- Addition followed by subtraction of the same `w`-bit value is the identity,
also when the sum wraps around. -/
theorem uint.add_sub_cancel {w : Nat} (a b : uint w) : a + b - b = a := by
  apply uint.ext_val
  show ((a.val + b.val) % 2 ^ w + (2 ^ w - b.val)) % 2 ^ w = a.val
  have ha := a.lt
  have hb := b.lt
  by_cases h : a.val + b.val < 2 ^ w
  · rw [Nat.mod_eq_of_lt h]
    have e : a.val + b.val + (2 ^ w - b.val) = a.val + 2 ^ w := by omega
    rw [e, Nat.add_mod_right, Nat.mod_eq_of_lt ha]
  · have h1 : (a.val + b.val) % 2 ^ w = a.val + b.val - 2 ^ w := by
      rw [Nat.mod_eq_sub_mod (by omega)]
      exact Nat.mod_eq_of_lt (by omega)
    rw [h1]
    have e : a.val + b.val - 2 ^ w + (2 ^ w - b.val) = a.val := by omega
    rw [e, Nat.mod_eq_of_lt ha]

/-- C19: for points `p`, `q` of dimension `N` whose components are `w`-bit
unsigned integers with `+` and `-` computed modulo `2^w`, `(p + q) - q == p`
component-wise, also when component sums overflow (and the operands are left
as they were). -/
theorem add_sub_round_trip_wrap (L : Type) [DecidableEq L] (N w : Nat) (m : Mem L (uint w) N)
    (p q : L) :
    (∀ i : Fin N,
      (operator_minus (operator_plus m (m p) q).2 (operator_plus m (m p) q).1 q).1.data_ i =
        (m p).data_ i) ∧
    (operator_minus (operator_plus m (m p) q).2 (operator_plus m (m p) q).1 q).1 = m p ∧
    (operator_minus (operator_plus m (m p) q).2 (operator_plus m (m p) q).1 q).2 = m := by
  have h1 := operator_plus_mem m (m p) q
  have h2 := operator_minus_mem (operator_plus m (m p) q).2 (operator_plus m (m p) q).1 q
  have hc : ∀ i : Fin N,
      (operator_minus (operator_plus m (m p) q).2 (operator_plus m (m p) q).1 q).1.data_ i =
        (m p).data_ i := by
    intro i
    rw [h2.1 i, h1.1 i, h1.2]
    exact uint.add_sub_cancel _ _
  exact ⟨hc, point.ext_data _ _ hc, h2.2.trans h1.2⟩

/-- C19, concrete case: with 8-bit components, `a = (200, 1)` and
`b = (100, 255)`, both sums overflow (`a + b` is (44, 0)) and `(a + b) - b`
is (200, 1). -/
theorem add_sub_round_trip_wrap_witness :
    ((operator_plus mem_u8 (mem_u8 false) true).1.data_ 0).val = 44 ∧
    ((operator_plus mem_u8 (mem_u8 false) true).1.data_ 1).val = 0 ∧
    ((operator_minus (operator_plus mem_u8 (mem_u8 false) true).2
      (operator_plus mem_u8 (mem_u8 false) true).1 true).1.data_ 0).val = 200 ∧
    ((operator_minus (operator_plus mem_u8 (mem_u8 false) true).2
      (operator_plus mem_u8 (mem_u8 false) true).1 true).1.data_ 1).val = 1 :=
  have h := add_sub_round_trip_wrap Bool 2 8 mem_u8 false true
  ⟨by decide, by decide, (congrArg uint.val (h.1 0)).trans (by decide),
    (congrArg uint.val (h.1 1)).trans (by decide)⟩

end PointHpp
